import Mathlib

/-
  Verification of the wallace amortization engine (src/wallace.go).

  Shallow embedding conventions:
  * Monetary values are modelled as exact rationals (ℚ).  The Go program
    stores amounts in math/big.Float values (binary floating point, 53-bit
    parse precision) and truncateToTwoDecimals round-trips through float64;
    the rational model performs the same arithmetic steps exactly.  All
    concrete inputs used in counterexamples and witnesses are dyadic
    rationals with few significant bits, on which the float64/big.Float
    computations of the source are exact, so the modelled behaviour agrees
    with the program on those inputs.
  * Dates are modelled by their day number (rata die, days since
    1970-01-01, proleptic Gregorian), with civil-triple conversion following
    the same normalization rules as Go time.Date / Time.AddDate: an
    out-of-range month is folded into the year with floored division and an
    out-of-range day simply adds linearly past the end of the month.
  * log.Fatalf (which aborts the process) is modelled by an `err` field in
    the generator result; rows accumulated before the failure are kept for
    reasoning but the program would emit nothing.
-/

/-- A calendar date, stored as its rata-die day number (days since
1970-01-01 in the proleptic Gregorian calendar), exactly the linear
day count that Go time.Time.Sub exposes for midnight-UTC dates. -/
structure Date where
  rd : ℤ
deriving DecidableEq, Repr

/-- Civil (year, month, day) triple from a day number; the standard
proleptic-Gregorian algorithm, matching Go time.Time.Date(). -/
def civilFromDays (z0 : ℤ) : ℤ × ℤ × ℤ :=
  let z := z0 + 719468
  let era := Int.fdiv z 146097
  let doe := z - era * 146097
  let yoe := Int.fdiv (doe - Int.fdiv doe 1460 + Int.fdiv doe 36524 - Int.fdiv doe 146096) 365
  let y := yoe + era * 400
  let doy := doe - (365 * yoe + Int.fdiv yoe 4 - Int.fdiv yoe 100)
  let mp := Int.fdiv (5 * doy + 2) 153
  let d := doy - Int.fdiv (153 * mp + 2) 5 + 1
  let m := mp + (if mp < 10 then 3 else -9)
  (y + (if m ≤ 2 then 1 else 0), m, d)

/-- Day number from a civil (year, month, day) triple.  Like Go
time.Date, the month is first normalized into 1..12 by floored division
(adjusting the year) and the day is added linearly, so out-of-range days
normalize past the end of the month (e.g. February 31 2020 = March 2 2020). -/
def daysFromCivil (y m d : ℤ) : ℤ :=
  let y1 := y + Int.fdiv (m - 1) 12
  let m1 := Int.emod (m - 1) 12 + 1
  let y2 := y1 - (if m1 ≤ 2 then 1 else 0)
  let era := Int.fdiv y2 400
  let yoe := y2 - era * 400
  let mp := Int.emod (m1 + 9) 12
  let doy := Int.fdiv (153 * mp + 2) 5 + d - 1
  let doe := yoe * 365 + Int.fdiv yoe 4 - Int.fdiv yoe 100 + doy
  era * 146097 + doe - 719468

/-- Go time.Date(y, m, d, 0,0,0,0, UTC), including its normalization. -/
def mkDate (y m d : ℤ) : Date := ⟨daysFromCivil y m d⟩

/-- Time.Year() -/
def Date.year (dt : Date) : ℤ := (civilFromDays dt.rd).1

/-- Time.Month() -/
def Date.month (dt : Date) : ℤ := (civilFromDays dt.rd).2.1

/-- Time.Day() -/
def Date.day (dt : Date) : ℤ := (civilFromDays dt.rd).2.2

/-- Go Time.AddDate(0, n, 0): re-enter time.Date with the month shifted. -/
def addMonths (dt : Date) (n : ℤ) : Date := mkDate dt.year (dt.month + n) dt.day

/-- PaymentPeriod from src/wallace.go lines 46-50: a (year, month, day)
key with structural equality. -/
structure PaymentPeriod where
  year : ℤ
  month : ℤ
  day : ℤ
deriving DecidableEq, Repr

/-- The PaymentPeriod key the generator builds from a period date at
src/wallace.go line 125. -/
def ppOf (dt : Date) : PaymentPeriod := ⟨dt.year, dt.month, dt.day⟩

/-- LumpSumPayment from src/wallace.go lines 52-60.  The display-only
fields (original currency amount, currency code, exchange rate and its
date) are attached for rendering and never enter the arithmetic
(src/wallace.go lines 260-290), so they are omitted from the model. -/
structure LumpSumPayment where
  paymentDate : Date
  amount : ℚ
deriving DecidableEq, Repr

/-- The lumpSums map built by getLumpSums (src/wallace.go line 215). -/
def Ledger : Type := PaymentPeriod → Option LumpSumPayment

/-- The empty lumpSums map (no extra payments). -/
def emptyLedger : Ledger := fun _ => none

/-- Map insertion, modelling `lumpSums[pp] = ...` (src/wallace.go line 290). -/
def updateLedger (L : Ledger) (pp : PaymentPeriod) (e : LumpSumPayment) : Ledger :=
  fun p => if p = pp then some e else L p

/-- Removal of one key from the map (used to state that an unmatched
entry does not influence generation). -/
def eraseLedger (L : Ledger) (pp : PaymentPeriod) : Ledger :=
  fun p => if p = pp then none else L p

/-- math.Round-based two-decimal rounding used by truncateToTwoDecimals:
nearest integer, ties away from zero (the semantics of Go math.Round). -/
def roundHalfAway (x : ℚ) : ℤ :=
  if 0 ≤ x then ⌊x + 1 / 2⌋ else ⌈x - 1 / 2⌉

/-- truncateToTwoDecimals from src/wallace.go lines 180-185:
`float64(math.Round(balanceAsFloat*100.)) / 100.` — despite its name it
rounds to the NEAREST cent (ties away from zero); the float64 round-trip
is modelled as exact rational arithmetic. -/
def truncateToTwoDecimals (x : ℚ) : ℚ :=
  (roundHalfAway (x * 100) : ℚ) / 100

/-- bigFloatMin from src/wallace.go lines 206-212. -/
def bigFloatMin (a b : ℚ) : ℚ := if a < b then a else b

/-- getInterest from src/wallace.go lines 300-303 (the index argument is
unused in the source as well). -/
def getInterest (principal monthlyRate : ℚ) (_n : ℕ) : ℚ :=
  principal * monthlyRate

/-- getPaymentCount from src/wallace.go lines 305-307. -/
def getPaymentCount (term : ℕ) : ℕ := term * 12

/-- getMonthlyPayment from src/wallace.go lines 309-324:
monthlyRate / (1 - (1+monthlyRate)^(-paymentCount)) * loanAmount.
When the divisor is zero (monthlyRate = 0) the source performs the
big.Float quotient 0/0, which panics (ErrNaN); this failure is modelled
as `none`. -/
def getMonthlyPayment (monthlyRate loanAmount : ℚ) (paymentCount : ℕ) : Option ℚ :=
  let powA := 1 + monthlyRate
  let pow := powA ^ (-(paymentCount : ℤ))
  let divisor := 1 - pow
  if divisor = 0 then none
  else some (monthlyRate / divisor * loanAmount)

/-- One record of the lump-sums csv file after its date and amount have
been parsed (src/wallace.go lines 229-247); header-row leniency and the
display-only trailing fields are outside the claims under verification. -/
structure LSRecord where
  paymentDate : Date
  amount : ℚ
deriving DecidableEq, Repr

/-- The per-record normalization and insertion loop of getLumpSums
(src/wallace.go lines 224-291): a payment dated before the contractual
day is attributed to the previous month's period at the contractual day
(via time.AddDate(0,-1,0) and time.Date, lines 250-254); a second record
for an occupied period is a DuplicateLumpSum error (modelled as none). -/
def getLumpSumsAux (startDate : Date) : List LSRecord → Ledger → Option Ledger
  | [], acc => some acc
  | r :: rest, acc =>
    let pp : PaymentPeriod :=
      if r.paymentDate.day < startDate.day then
        let paymentMonth := addMonths r.paymentDate (-1)
        let paymentDay := mkDate paymentMonth.year paymentMonth.month startDate.day
        ppOf paymentDay
      else
        ⟨r.paymentDate.year, r.paymentDate.month, startDate.day⟩
    match acc pp with
    | some _ => none
    | none => getLumpSumsAux startDate rest (updateLedger acc pp ⟨r.paymentDate, r.amount⟩)

/-- getLumpSums from src/wallace.go lines 214-294, starting from the
empty map. -/
def getLumpSums (records : List LSRecord) (startDate : Date) : Option Ledger :=
  getLumpSumsAux startDate records emptyLedger

/-- Row kind: the "type" column of the emitted csv ("loan" or "lump sum",
src/wallace.go lines 123 and 132). -/
inductive RowKind where
  | loan
  | lumpSum
deriving DecidableEq, Repr, BEq

/-- One emitted schedule row (src/wallace.go lines 123 and 132). -/
structure Row where
  date : Date
  kind : RowKind
  interest : ℚ
  principal : ℚ
  payment : ℚ
  balance : ℚ
deriving DecidableEq, Repr

/-- The fatal failure raised at src/wallace.go lines 127-129 when a lump
sum's payment date falls after the period's payment date. -/
inductive GenError where
  | misalignedLumpSum (paymentDate periodDate : Date)
deriving DecidableEq, Repr

/-- Result of the schedule loop: emitted rows, the fatal error if one
occurred (log.Fatalf aborts the run, so on error nothing is printed),
and the PaymentPeriod keys looked up, in order. -/
structure RunResult where
  rows : List Row
  err : Option GenError
  visited : List PaymentPeriod
deriving Repr

/-- The schedule-generation loop of main, src/wallace.go lines 105-134:

    for n := 0; n <= paymentCount && balance > 0; n++ { ... }

`rem` is the number of loop iterations still allowed by the
`n <= paymentCount` bound (paymentCount+1-n); the loop body re-truncates
the balance at line 109 (subtracting the zero monthPrincipal), performs
the regular-payment arithmetic for n > 0 (lines 110-119), emits the
"loan" row, then consults the lump-sum map for the current period date
(lines 125-133): a lump sum dated after the period date is fatal, and
otherwise its amount is subtracted from the balance with no truncation
and a "lump sum" row is emitted.

The regular-payment arithmetic of one loop iteration
(src/wallace.go lines 106-119), producing
(monthInterest, monthPrincipal, monthPayment, new balance) from the
balance `b1` already re-truncated at line 109.  For n = 0 the three
amounts keep their zero initializations and the balance is unchanged. -/
def regularStep (monthlyPayment monthlyRate : ℚ) (n : ℕ) (b1 : ℚ) : ℚ × ℚ × ℚ × ℚ :=
  if n = 0 then (0, 0, 0, b1)
  else
    let monthInterest := truncateToTwoDecimals (getInterest b1 monthlyRate (n + 1))
    let actualMonthPrincipal := bigFloatMin (monthlyPayment - monthInterest) b1
    let monthPrincipal := truncateToTwoDecimals actualMonthPrincipal
    let b2 := truncateToTwoDecimals (b1 - monthPrincipal)
    let monthPayment := bigFloatMin monthlyPayment (monthInterest + monthPrincipal)
    (monthInterest, monthPrincipal, monthPayment, b2)

/-- The period loop of main (src/wallace.go lines 105-134); see the
comment on regularStep above for the per-iteration arithmetic. -/
def generateSchedule (monthlyPayment monthlyRate : ℚ) (startDate : Date)
    (lumpSums : Ledger) : ℕ → ℕ → ℚ → RunResult
  | _, 0, _ => ⟨[], none, []⟩
  | n, rem + 1, balance =>
    if balance ≤ 0 then ⟨[], none, []⟩
    else
      let b1 := truncateToTwoDecimals (balance - 0)
      let step := regularStep monthlyPayment monthlyRate n b1
      let monthInterest := step.1
      let monthPrincipal := step.2.1
      let monthPayment := step.2.2.1
      let b2 := step.2.2.2
      let periodDate := addMonths startDate n
      let pp := ppOf periodDate
      let row : Row := ⟨periodDate, .loan, monthInterest, monthPrincipal, monthPayment, b2⟩
      match lumpSums pp with
      | none =>
        let rest := generateSchedule monthlyPayment monthlyRate startDate lumpSums (n + 1) rem b2
        ⟨row :: rest.rows, rest.err, pp :: rest.visited⟩
      | some payment =>
        if payment.paymentDate.rd - periodDate.rd > 0 then
          ⟨[row], some (.misalignedLumpSum payment.paymentDate periodDate), [pp]⟩
        else
          let b3 := b2 - payment.amount
          let lumpRow : Row := ⟨payment.paymentDate, .lumpSum, 0, payment.amount, payment.amount, b3⟩
          let rest := generateSchedule monthlyPayment monthlyRate startDate lumpSums (n + 1) rem b3
          ⟨row :: lumpRow :: rest.rows, rest.err, pp :: rest.visited⟩

/-- The wiring of main (src/wallace.go lines 78-105): annual interest
percentage / 100 / 12, paymentCount = years * 12, fixed payment from
getMonthlyPayment, then the schedule loop from period 0 with the raw
loan amount as opening balance. -/
def wallaceRun (loanAmount interestPct : ℚ) (years : ℕ) (startDate : Date)
    (ledger : Ledger) : Option RunResult :=
  let monthlyInterest := interestPct / 100 / 12
  let paymentCount := getPaymentCount years
  (getMonthlyPayment monthlyInterest loanAmount paymentCount).map fun mp =>
    generateSchedule mp monthlyInterest startDate ledger 0 (paymentCount + 1) loanAmount

/-- Modelled from the spec: "Truncation: rounding toward zero at the cent
boundary" (spec glossary / section 4.2) — the flooring-toward-zero
truncation the spec prescribes, for comparison with the source's
truncateToTwoDecimals. -/
def truncTowardZeroTwoDecimalsSpec (x : ℚ) : ℚ :=
  ((if 0 ≤ x * 100 then ⌊x * 100⌋ else ⌈x * 100⌉ : ℤ) : ℚ) / 100

/-- The set of values exactly representable by the engine's number type:
Go math/big.Float (used at src/wallace.go line 239 and throughout) holds
sign × mantissa × 2^exponent, i.e. exactly the dyadic rationals. -/
def bigFloatExact (q : ℚ) : Prop :=
  ∃ (m : ℤ) (e : ℕ), q * 2 ^ e = (m : ℚ)

/-- An exact cent amount: a rational with at most two decimal places. -/
def isCent (x : ℚ) : Prop := (x * 100).den = 1

/-! ### Helper lemmas about the numeric primitives -/

theorem bigFloatMin_eq_min (a b : ℚ) : bigFloatMin a b = min a b := by
  unfold bigFloatMin
  rcases lt_or_ge a b with h | h
  · rw [if_pos h, min_eq_left h.le]
  · rw [if_neg (not_lt.mpr h), min_eq_right h]

theorem roundHalfAway_le (x : ℚ) : (roundHalfAway x : ℚ) ≤ x + 1 / 2 := by
  unfold roundHalfAway
  split
  · exact Int.floor_le _
  · have h := Int.ceil_lt_add_one (x - 1 / 2)
    linarith

theorem le_roundHalfAway (x : ℚ) : x - 1 / 2 ≤ (roundHalfAway x : ℚ) := by
  unfold roundHalfAway
  split
  · have h := Int.sub_one_lt_floor (x + 1 / 2)
    linarith
  · exact Int.le_ceil _

theorem roundHalfAway_mono {x y : ℚ} (h : x ≤ y) : roundHalfAway x ≤ roundHalfAway y := by
  unfold roundHalfAway
  by_cases hx : (0 : ℚ) ≤ x <;> by_cases hy : (0 : ℚ) ≤ y
  · rw [if_pos hx, if_pos hy]
    exact Int.floor_le_floor (by linarith)
  · exact absurd (hx.trans h) hy
  · rw [if_neg hx, if_pos hy]
    have h1 : ⌈x - 1 / 2⌉ ≤ (0 : ℤ) := Int.ceil_le.mpr (by push_cast; linarith [lt_of_not_ge hx])
    have h2 : (0 : ℤ) ≤ ⌊y + 1 / 2⌋ := Int.le_floor.mpr (by push_cast; linarith)
    omega
  · rw [if_neg hx, if_neg hy]
    exact Int.ceil_le_ceil (by linarith)

theorem roundHalfAway_nonneg {x : ℚ} (h : -(1 / 2) < x) : 0 ≤ roundHalfAway x := by
  unfold roundHalfAway
  split
  · next hx => exact Int.le_floor.mpr (by push_cast; linarith)
  · next hx =>
      have h1 : (-1 : ℤ) < ⌈x - 1 / 2⌉ := Int.lt_ceil.mpr (by push_cast; linarith)
      omega

theorem roundHalfAway_intCast (k : ℤ) : roundHalfAway (k : ℚ) = k := by
  unfold roundHalfAway
  split
  · rw [add_comm, Int.floor_add_int]
    have h : ⌊(1 / 2 : ℚ)⌋ = 0 := Int.floor_eq_iff.mpr (by norm_num)
    omega
  · rw [sub_eq_add_neg, add_comm, Int.ceil_add_int]
    have h : ⌈(-(1 / 2) : ℚ)⌉ = 0 := Int.ceil_eq_iff.mpr (by norm_num)
    omega

theorem isCent_iff {x : ℚ} : isCent x ↔ ∃ k : ℤ, x = (k : ℚ) / 100 := by
  constructor
  · intro h
    refine ⟨(x * 100).num, ?_⟩
    have h3 := Rat.num_div_den (x * 100)
    rw [h] at h3
    rw [eq_div_iff (by norm_num : (100 : ℚ) ≠ 0)]
    simpa using h3.symm
  · rintro ⟨k, rfl⟩
    unfold isCent
    rw [div_mul_cancel₀ _ (by norm_num : (100 : ℚ) ≠ 0)]
    exact Rat.den_intCast k

theorem isCent_zero : isCent 0 := by unfold isCent; norm_num

theorem truncateToTwoDecimals_isCent (x : ℚ) : isCent (truncateToTwoDecimals x) := by
  unfold truncateToTwoDecimals isCent
  rw [div_mul_cancel₀ _ (by norm_num : (100 : ℚ) ≠ 0)]
  exact Rat.den_intCast _

theorem truncateToTwoDecimals_fix {x : ℚ} (h : isCent x) : truncateToTwoDecimals x = x := by
  rcases isCent_iff.mp h with ⟨k, rfl⟩
  unfold truncateToTwoDecimals
  rw [div_mul_cancel₀ _ (by norm_num : (100 : ℚ) ≠ 0), roundHalfAway_intCast]

theorem truncateToTwoDecimals_mono {x y : ℚ} (h : x ≤ y) :
    truncateToTwoDecimals x ≤ truncateToTwoDecimals y := by
  unfold truncateToTwoDecimals
  have h2 := roundHalfAway_mono (mul_le_mul_of_nonneg_right h (by norm_num : (0 : ℚ) ≤ 100))
  have h3 : ((roundHalfAway (x * 100) : ℤ) : ℚ) ≤ ((roundHalfAway (y * 100) : ℤ) : ℚ) := by
    exact_mod_cast h2
  linarith

theorem truncateToTwoDecimals_le (x : ℚ) : truncateToTwoDecimals x ≤ x + 1 / 200 := by
  unfold truncateToTwoDecimals
  have h := roundHalfAway_le (x * 100)
  rw [div_le_iff₀ (by norm_num : (0 : ℚ) < 100)]
  linarith

theorem le_truncateToTwoDecimals (x : ℚ) : x - 1 / 200 ≤ truncateToTwoDecimals x := by
  unfold truncateToTwoDecimals
  have h := le_roundHalfAway (x * 100)
  rw [le_div_iff₀ (by norm_num : (0 : ℚ) < 100)]
  linarith

theorem truncateToTwoDecimals_nonneg {x : ℚ} (h : -(1 / 200) < x) :
    0 ≤ truncateToTwoDecimals x := by
  unfold truncateToTwoDecimals
  have h2 : (0 : ℤ) ≤ roundHalfAway (x * 100) := roundHalfAway_nonneg (by linarith)
  have h3 : (0 : ℚ) ≤ (roundHalfAway (x * 100) : ℚ) := by exact_mod_cast h2
  positivity

theorem truncateToTwoDecimals_zero : truncateToTwoDecimals 0 = 0 :=
  truncateToTwoDecimals_fix isCent_zero

/-! ### Structural lemmas about regularStep and the schedule loop -/

theorem regularStep_spec (mp r b1 : ℚ) {n : ℕ} (h : n ≠ 0) :
    (regularStep mp r n b1).1 = truncateToTwoDecimals (b1 * r) ∧
    (regularStep mp r n b1).2.1 =
      truncateToTwoDecimals (bigFloatMin (mp - (regularStep mp r n b1).1) b1) ∧
    (regularStep mp r n b1).2.2.1 =
      bigFloatMin mp ((regularStep mp r n b1).1 + (regularStep mp r n b1).2.1) ∧
    (regularStep mp r n b1).2.2.2 =
      truncateToTwoDecimals (b1 - (regularStep mp r n b1).2.1) := by
  unfold regularStep getInterest
  rw [if_neg h]
  exact ⟨rfl, rfl, rfl, rfl⟩

theorem regularStep_zero (mp r b1 : ℚ) : regularStep mp r 0 b1 = (0, 0, 0, b1) := rfl

theorem regularStep_cents (mp r : ℚ) (n : ℕ) {b1 : ℚ} (hc : isCent b1) :
    isCent (regularStep mp r n b1).1 ∧ isCent (regularStep mp r n b1).2.1 ∧
      isCent (regularStep mp r n b1).2.2.2 := by
  rcases Nat.eq_zero_or_pos n with hn | hn
  · subst hn
    exact ⟨isCent_zero, isCent_zero, hc⟩
  · rcases regularStep_spec mp r b1 (Nat.pos_iff_ne_zero.mp hn) with ⟨h1, h2, _, h4⟩
    exact ⟨h1 ▸ truncateToTwoDecimals_isCent _, h2 ▸ truncateToTwoDecimals_isCent _,
      h4 ▸ truncateToTwoDecimals_isCent _⟩

theorem regularStep_balance_nonneg (mp r : ℚ) (n : ℕ) {b1 : ℚ} (hb : 0 ≤ b1)
    (hc : isCent b1) : 0 ≤ (regularStep mp r n b1).2.2.2 := by
  rcases Nat.eq_zero_or_pos n with hn | hn
  · subst hn; exact hb
  · rcases regularStep_spec mp r b1 (Nat.pos_iff_ne_zero.mp hn) with ⟨_, h2, _, h4⟩
    set i := (regularStep mp r n b1).1
    set p := (regularStep mp r n b1).2.1
    have hminle : bigFloatMin (mp - i) b1 ≤ b1 := by
      rw [bigFloatMin_eq_min]; exact min_le_right _ _
    have hple : p ≤ b1 := by
      rw [h2]
      calc truncateToTwoDecimals (bigFloatMin (mp - i) b1) ≤ truncateToTwoDecimals b1 :=
            truncateToTwoDecimals_mono hminle
        _ = b1 := truncateToTwoDecimals_fix hc
    rw [h4]
    have : (0 : ℚ) ≤ b1 - p := by linarith
    calc (0 : ℚ) = truncateToTwoDecimals 0 := truncateToTwoDecimals_zero.symm
      _ ≤ truncateToTwoDecimals (b1 - p) := truncateToTwoDecimals_mono this

theorem regularStep_balance_le (mp r : ℚ) (n : ℕ) {b1 : ℚ} (hb : 0 ≤ b1)
    (hc : isCent b1) (hmp : b1 * r < mp) :
    (regularStep mp r n b1).2.2.2 ≤ b1 := by
  rcases Nat.eq_zero_or_pos n with hn | hn
  · subst hn; exact le_refl b1
  · rcases regularStep_spec mp r b1 (Nat.pos_iff_ne_zero.mp hn) with ⟨h1, h2, _, h4⟩
    set i := (regularStep mp r n b1).1
    set p := (regularStep mp r n b1).2.1
    have hi_le : i ≤ b1 * r + 1 / 200 := by
      rw [h1]; exact truncateToTwoDecimals_le _
    have hmin_gt : -(1 / 200) < bigFloatMin (mp - i) b1 := by
      rw [bigFloatMin_eq_min, lt_min_iff]
      constructor
      · linarith
      · linarith
    have hp_nonneg : 0 ≤ p := by
      rw [h2]; exact truncateToTwoDecimals_nonneg hmin_gt
    have hsub : b1 - p ≤ b1 := by linarith
    rw [h4]
    calc truncateToTwoDecimals (b1 - p) ≤ truncateToTwoDecimals b1 :=
          truncateToTwoDecimals_mono hsub
      _ = b1 := truncateToTwoDecimals_fix hc

theorem gen_succ_none (mp r : ℚ) (sd : Date) (L : Ledger) (n rem : ℕ) {b : ℚ}
    (hb : ¬ b ≤ 0) (hL : L (ppOf (addMonths sd n)) = none) :
    generateSchedule mp r sd L n (rem + 1) b =
      ⟨⟨addMonths sd n, .loan, (regularStep mp r n (truncateToTwoDecimals (b - 0))).1,
          (regularStep mp r n (truncateToTwoDecimals (b - 0))).2.1,
          (regularStep mp r n (truncateToTwoDecimals (b - 0))).2.2.1,
          (regularStep mp r n (truncateToTwoDecimals (b - 0))).2.2.2⟩ ::
            (generateSchedule mp r sd L (n + 1) rem
              (regularStep mp r n (truncateToTwoDecimals (b - 0))).2.2.2).rows,
        (generateSchedule mp r sd L (n + 1) rem
          (regularStep mp r n (truncateToTwoDecimals (b - 0))).2.2.2).err,
        ppOf (addMonths sd n) ::
          (generateSchedule mp r sd L (n + 1) rem
            (regularStep mp r n (truncateToTwoDecimals (b - 0))).2.2.2).visited⟩ := by
  conv_lhs => rw [generateSchedule]
  rw [if_neg hb]
  simp only [hL]

theorem gen_succ_some_after (mp r : ℚ) (sd : Date) (L : Ledger) (n rem : ℕ) {b : ℚ}
    {payment : LumpSumPayment} (hb : ¬ b ≤ 0)
    (hL : L (ppOf (addMonths sd n)) = some payment)
    (hd : payment.paymentDate.rd - (addMonths sd n).rd > 0) :
    generateSchedule mp r sd L n (rem + 1) b =
      ⟨[⟨addMonths sd n, .loan, (regularStep mp r n (truncateToTwoDecimals (b - 0))).1,
          (regularStep mp r n (truncateToTwoDecimals (b - 0))).2.1,
          (regularStep mp r n (truncateToTwoDecimals (b - 0))).2.2.1,
          (regularStep mp r n (truncateToTwoDecimals (b - 0))).2.2.2⟩],
        some (.misalignedLumpSum payment.paymentDate (addMonths sd n)),
        [ppOf (addMonths sd n)]⟩ := by
  conv_lhs => rw [generateSchedule]
  rw [if_neg hb]
  simp only [hL]
  rw [if_pos hd]

theorem gen_succ_some_ok (mp r : ℚ) (sd : Date) (L : Ledger) (n rem : ℕ) {b : ℚ}
    {payment : LumpSumPayment} (hb : ¬ b ≤ 0)
    (hL : L (ppOf (addMonths sd n)) = some payment)
    (hd : ¬ payment.paymentDate.rd - (addMonths sd n).rd > 0) :
    generateSchedule mp r sd L n (rem + 1) b =
      ⟨⟨addMonths sd n, .loan, (regularStep mp r n (truncateToTwoDecimals (b - 0))).1,
          (regularStep mp r n (truncateToTwoDecimals (b - 0))).2.1,
          (regularStep mp r n (truncateToTwoDecimals (b - 0))).2.2.1,
          (regularStep mp r n (truncateToTwoDecimals (b - 0))).2.2.2⟩ ::
        ⟨payment.paymentDate, .lumpSum, 0, payment.amount, payment.amount,
          (regularStep mp r n (truncateToTwoDecimals (b - 0))).2.2.2 - payment.amount⟩ ::
            (generateSchedule mp r sd L (n + 1) rem
              ((regularStep mp r n (truncateToTwoDecimals (b - 0))).2.2.2 -
                payment.amount)).rows,
        (generateSchedule mp r sd L (n + 1) rem
          ((regularStep mp r n (truncateToTwoDecimals (b - 0))).2.2.2 - payment.amount)).err,
        ppOf (addMonths sd n) ::
          (generateSchedule mp r sd L (n + 1) rem
            ((regularStep mp r n (truncateToTwoDecimals (b - 0))).2.2.2 -
              payment.amount)).visited⟩ := by
  conv_lhs => rw [generateSchedule]
  rw [if_neg hb]
  simp only [hL]
  rw [if_neg hd]

theorem gen_zero_rem (mp r : ℚ) (sd : Date) (L : Ledger) (n : ℕ) (b : ℚ) :
    generateSchedule mp r sd L n 0 b = ⟨[], none, []⟩ := rfl

theorem gen_halt (mp r : ℚ) (sd : Date) (L : Ledger) (n rem : ℕ) {b : ℚ} (hb : b ≤ 0) :
    generateSchedule mp r sd L n (rem + 1) b = ⟨[], none, []⟩ := by
  rw [generateSchedule, if_pos hb]

theorem gen_head_spec (mp r : ℚ) (sd : Date) (L : Ledger) {n rem : ℕ} {b : ℚ} {row : Row}
    (hn : n ≠ 0) (h : (generateSchedule mp r sd L n rem b).rows.head? = some row) :
    row.kind = RowKind.loan ∧
    row.interest = truncateToTwoDecimals (truncateToTwoDecimals b * r) ∧
    row.principal =
      truncateToTwoDecimals (bigFloatMin (mp - row.interest) (truncateToTwoDecimals b)) ∧
    row.payment = bigFloatMin mp (row.interest + row.principal) ∧
    row.balance = truncateToTwoDecimals (truncateToTwoDecimals b - row.principal) := by
  cases rem with
  | zero => simp [gen_zero_rem] at h
  | succ rem =>
    by_cases hb : b ≤ 0
    · rw [gen_halt mp r sd L n rem hb] at h
      simp at h
    · rcases regularStep_spec mp r (truncateToTwoDecimals b) hn with ⟨h1, h2, h3, h4⟩
      rcases hL : L (ppOf (addMonths sd n)) with _ | payment
      · rw [gen_succ_none mp r sd L n rem hb hL] at h
        simp only [sub_zero, List.head?_cons, Option.some.injEq] at h
        subst h
        exact ⟨rfl, h1, h2, h3, h4⟩
      · by_cases hd : payment.paymentDate.rd - (addMonths sd n).rd > 0
        · rw [gen_succ_some_after mp r sd L n rem hb hL hd] at h
          simp only [sub_zero, List.head?_cons, Option.some.injEq] at h
          subst h
          exact ⟨rfl, h1, h2, h3, h4⟩
        · rw [gen_succ_some_ok mp r sd L n rem hb hL hd] at h
          simp only [sub_zero, List.head?_cons, Option.some.injEq] at h
          subst h
          exact ⟨rfl, h1, h2, h3, h4⟩

theorem gen_adjacent (mp r : ℚ) (sd : Date) (L : Ledger) :
    ∀ (rem n : ℕ) (b : ℚ) (k : ℕ) (row1 row2 : Row),
    (generateSchedule mp r sd L n rem b).rows.get? k = some row1 →
    (generateSchedule mp r sd L n rem b).rows.get? (k + 1) = some row2 →
    row2.kind = RowKind.loan →
    row2.interest = truncateToTwoDecimals (truncateToTwoDecimals row1.balance * r) ∧
    row2.principal = truncateToTwoDecimals
      (bigFloatMin (mp - row2.interest) (truncateToTwoDecimals row1.balance)) ∧
    row2.payment = bigFloatMin mp (row2.interest + row2.principal) ∧
    row2.balance = truncateToTwoDecimals
      (truncateToTwoDecimals row1.balance - row2.principal) := by
  intro rem
  induction rem with
  | zero => intro n b k row1 row2 h1 _ _; simp [gen_zero_rem] at h1
  | succ rem ih =>
    intro n b k row1 row2 h1 h2 hk
    by_cases hb : b ≤ 0
    · rw [gen_halt mp r sd L n rem hb] at h1
      simp at h1
    · rcases hL : L (ppOf (addMonths sd n)) with _ | payment
      · rw [gen_succ_none mp r sd L n rem hb hL] at h1 h2
        cases k with
        | zero =>
          simp only [List.get?_cons_zero, Option.some.injEq] at h1
          rw [List.get?_cons_succ, List.get?_zero] at h2
          have hspec := gen_head_spec mp r sd L (Nat.succ_ne_zero n) h2
          rw [← h1]
          exact ⟨hspec.2.1, hspec.2.2.1, hspec.2.2.2.1, hspec.2.2.2.2⟩
        | succ k =>
          rw [List.get?_cons_succ] at h1 h2
          exact ih (n + 1) _ k row1 row2 h1 h2 hk
      · by_cases hd : payment.paymentDate.rd - (addMonths sd n).rd > 0
        · rw [gen_succ_some_after mp r sd L n rem hb hL hd] at h1 h2
          cases k with
          | zero => simp at h2
          | succ k => simp at h1
        · rw [gen_succ_some_ok mp r sd L n rem hb hL hd] at h1 h2
          cases k with
          | zero =>
            simp only [List.get?_cons_zero, Option.some.injEq] at h1
            rw [List.get?_cons_succ, List.get?_cons_zero] at h2
            injection h2 with h2
            rw [← h2] at hk
            simp at hk
          | succ k =>
            rw [List.get?_cons_succ] at h1 h2
            cases k with
            | zero =>
              simp only [List.get?_cons_zero, Option.some.injEq] at h1
              rw [List.get?_cons_succ, List.get?_zero] at h2
              have hspec := gen_head_spec mp r sd L (Nat.succ_ne_zero n) h2
              rw [← h1]
              exact ⟨hspec.2.1, hspec.2.2.1, hspec.2.2.2.1, hspec.2.2.2.2⟩
            | succ k =>
              rw [List.get?_cons_succ] at h1 h2
              exact ih (n + 1) _ k row1 row2 h1 h2 hk

theorem gen_loan_rows_cent (mp r : ℚ) (sd : Date) (L : Ledger) :
    ∀ (rem n : ℕ) (b : ℚ) (row : Row),
    row ∈ (generateSchedule mp r sd L n rem b).rows → row.kind = RowKind.loan →
    isCent row.interest ∧ isCent row.principal ∧ isCent row.balance := by
  intro rem
  induction rem with
  | zero => intro n b row h _; simp [gen_zero_rem] at h
  | succ rem ih =>
    intro n b row h hk
    by_cases hb : b ≤ 0
    · rw [gen_halt mp r sd L n rem hb] at h; simp at h
    · have hc1 : isCent (truncateToTwoDecimals (b - 0)) := truncateToTwoDecimals_isCent _
      have hcents := regularStep_cents mp r n hc1
      rcases hL : L (ppOf (addMonths sd n)) with _ | payment
      · rw [gen_succ_none mp r sd L n rem hb hL] at h
        rcases List.mem_cons.mp h with hrow | hmem
        · subst hrow; exact ⟨hcents.1, hcents.2.1, hcents.2.2⟩
        · exact ih (n + 1) _ row hmem hk
      · by_cases hd : payment.paymentDate.rd - (addMonths sd n).rd > 0
        · rw [gen_succ_some_after mp r sd L n rem hb hL hd] at h
          rcases List.mem_cons.mp h with hrow | hmem
          · subst hrow; exact ⟨hcents.1, hcents.2.1, hcents.2.2⟩
          · simp at hmem
        · rw [gen_succ_some_ok mp r sd L n rem hb hL hd] at h
          rcases List.mem_cons.mp h with hrow | hmem
          · subst hrow; exact ⟨hcents.1, hcents.2.1, hcents.2.2⟩
          · rcases List.mem_cons.mp hmem with hrow | hmem2
            · subst hrow; simp at hk
            · exact ih (n + 1) _ row hmem2 hk

theorem gen_loan_rows_nonneg (mp r : ℚ) (sd : Date) (L : Ledger) :
    ∀ (rem n : ℕ) (b : ℚ) (row : Row),
    row ∈ (generateSchedule mp r sd L n rem b).rows → row.kind = RowKind.loan →
    0 ≤ row.balance := by
  intro rem
  induction rem with
  | zero => intro n b row h _; simp [gen_zero_rem] at h
  | succ rem ih =>
    intro n b row h hk
    by_cases hb : b ≤ 0
    · rw [gen_halt mp r sd L n rem hb] at h; simp at h
    · have hb1 : 0 ≤ truncateToTwoDecimals (b - 0) :=
        truncateToTwoDecimals_nonneg (by linarith [lt_of_not_ge hb])
      have hc1 : isCent (truncateToTwoDecimals (b - 0)) := truncateToTwoDecimals_isCent _
      have hstep := regularStep_balance_nonneg mp r n hb1 hc1
      rcases hL : L (ppOf (addMonths sd n)) with _ | payment
      · rw [gen_succ_none mp r sd L n rem hb hL] at h
        rcases List.mem_cons.mp h with hrow | hmem
        · subst hrow; exact hstep
        · exact ih (n + 1) _ row hmem hk
      · by_cases hd : payment.paymentDate.rd - (addMonths sd n).rd > 0
        · rw [gen_succ_some_after mp r sd L n rem hb hL hd] at h
          rcases List.mem_cons.mp h with hrow | hmem
          · subst hrow; exact hstep
          · simp at hmem
        · rw [gen_succ_some_ok mp r sd L n rem hb hL hd] at h
          rcases List.mem_cons.mp h with hrow | hmem
          · subst hrow; exact hstep
          · rcases List.mem_cons.mp hmem with hrow | hmem2
            · subst hrow; simp at hk
            · exact ih (n + 1) _ row hmem2 hk

theorem getMonthlyPayment_pos_gt {r P : ℚ} {pc : ℕ} {mp : ℚ} (hr : 0 < r) (hP : 0 < P)
    (hpc : pc ≠ 0) (h : getMonthlyPayment r P pc = some mp) : P * r < mp ∧ 0 < mp := by
  have h1r : (1 : ℚ) < 1 + r := by linarith
  have hpow : (1 : ℚ) < (1 + r) ^ pc := one_lt_pow₀ h1r hpc
  have hq : (1 + r) ^ (-(pc : ℤ)) = ((1 + r) ^ pc)⁻¹ := by
    rw [zpow_neg, zpow_natCast]
  have hq1 : (1 + r) ^ (-(pc : ℤ)) < 1 := by
    rw [hq]; exact inv_lt_one_of_one_lt₀ hpow
  have hq0 : 0 < (1 + r) ^ (-(pc : ℤ)) := by
    rw [hq]
    exact inv_pos.mpr (by positivity)
  have hdiv : 0 < 1 - (1 + r) ^ (-(pc : ℤ)) := by linarith
  simp only [getMonthlyPayment] at h
  rw [if_neg hdiv.ne'] at h
  injection h with h
  subst h
  constructor
  · have hrd : r < r / (1 - (1 + r) ^ (-(pc : ℤ))) := by
      rw [lt_div_iff₀ hdiv]
      nlinarith
    calc P * r = r * P := mul_comm P r
      _ < r / (1 - (1 + r) ^ (-(pc : ℤ))) * P := mul_lt_mul_of_pos_right hrd hP
  · exact mul_pos (div_pos hr hdiv) hP

theorem gen_mono_aux (mp r P : ℚ) (sd : Date)
    (hmon : ∀ b : ℚ, 0 ≤ b → b ≤ P → b * r < mp) :
    ∀ (rem n : ℕ) (b : ℚ), 0 ≤ b → isCent b → b ≤ P →
      (∀ row, (generateSchedule mp r sd emptyLedger n rem b).rows.head? = some row →
        row.balance ≤ b ∧ 0 ≤ row.balance ∧ isCent row.balance ∧ row.balance ≤ P) ∧
      (∀ (k : ℕ) (r1 r2 : Row),
        (generateSchedule mp r sd emptyLedger n rem b).rows.get? k = some r1 →
        (generateSchedule mp r sd emptyLedger n rem b).rows.get? (k + 1) = some r2 →
        r2.balance ≤ r1.balance) := by
  intro rem
  induction rem with
  | zero =>
    intro n b _ _ _
    constructor
    · intro row h; simp [gen_zero_rem] at h
    · intro k r1 r2 h1 _; simp [gen_zero_rem] at h1
  | succ rem ih =>
    intro n b hb hc hbP
    by_cases hb0 : b ≤ 0
    · constructor
      · intro row h; rw [gen_halt mp r sd emptyLedger n rem hb0] at h; simp at h
      · intro k r1 r2 h1 _; rw [gen_halt mp r sd emptyLedger n rem hb0] at h1; simp at h1
    · have hb1 : truncateToTwoDecimals (b - 0) = b := by
        rw [sub_zero]; exact truncateToTwoDecimals_fix hc
      have hL : emptyLedger (ppOf (addMonths sd n)) = none := rfl
      have hstep_le : (regularStep mp r n b).2.2.2 ≤ b :=
        regularStep_balance_le mp r n hb hc (hmon b hb hbP)
      have hstep_nonneg : 0 ≤ (regularStep mp r n b).2.2.2 :=
        regularStep_balance_nonneg mp r n hb hc
      have hstep_cent : isCent (regularStep mp r n b).2.2.2 := (regularStep_cents mp r n hc).2.2
      have hstep_P : (regularStep mp r n b).2.2.2 ≤ P := le_trans hstep_le hbP
      have ihnext := ih (n + 1) ((regularStep mp r n b).2.2.2) hstep_nonneg hstep_cent hstep_P
      constructor
      · intro row h
        rw [gen_succ_none mp r sd emptyLedger n rem hb0 hL, hb1] at h
        simp only [List.head?_cons, Option.some.injEq] at h
        subst h
        exact ⟨hstep_le, hstep_nonneg, hstep_cent, hstep_P⟩
      · intro k r1 r2 h1 h2
        rw [gen_succ_none mp r sd emptyLedger n rem hb0 hL, hb1] at h1 h2
        cases k with
        | zero =>
          simp only [List.get?_cons_zero, Option.some.injEq] at h1
          rw [List.get?_cons_succ, List.get?_zero] at h2
          have hhead := ihnext.1 r2 h2
          rw [← h1]
          exact hhead.1
        | succ k =>
          rw [List.get?_cons_succ] at h1 h2
          exact ihnext.2 k r1 r2 h1 h2

theorem gen_erase_core (mp r : ℚ) (sd : Date) (L : Ledger) (pp0 : PaymentPeriod) :
    ∀ (rem n : ℕ) (b : ℚ),
      pp0 ∉ (generateSchedule mp r sd (eraseLedger L pp0) n rem b).visited →
      generateSchedule mp r sd L n rem b =
        generateSchedule mp r sd (eraseLedger L pp0) n rem b := by
  intro rem
  induction rem with
  | zero => intro n b _; rfl
  | succ rem ih =>
    intro n b hvis
    by_cases hb : b ≤ 0
    · rw [gen_halt mp r sd L n rem hb, gen_halt mp r sd (eraseLedger L pp0) n rem hb]
    · rcases hLE : eraseLedger L pp0 (ppOf (addMonths sd n)) with _ | payment
      · rw [gen_succ_none mp r sd (eraseLedger L pp0) n rem hb hLE] at hvis
        simp only [List.mem_cons] at hvis
        push_neg at hvis
        obtain ⟨hne, hrest⟩ := hvis
        have hLpp : L (ppOf (addMonths sd n)) = none := by
          have heq : eraseLedger L pp0 (ppOf (addMonths sd n)) = L (ppOf (addMonths sd n)) := by
            unfold eraseLedger
            have hcond : ¬ ppOf (addMonths sd n) = pp0 := fun hh => hne hh.symm
            rw [if_neg hcond]
          rw [← heq, hLE]
        rw [gen_succ_none mp r sd L n rem hb hLpp,
          gen_succ_none mp r sd (eraseLedger L pp0) n rem hb hLE,
          ih (n + 1) _ hrest]
      · have hppne : ppOf (addMonths sd n) ≠ pp0 := by
          intro hh
          rw [hh] at hLE
          unfold eraseLedger at hLE
          simp at hLE
        have hLpp : L (ppOf (addMonths sd n)) = some payment := by
          have heq : eraseLedger L pp0 (ppOf (addMonths sd n)) = L (ppOf (addMonths sd n)) := by
            unfold eraseLedger
            rw [if_neg hppne]
          rw [← heq, hLE]
        by_cases hd : payment.paymentDate.rd - (addMonths sd n).rd > 0
        · rw [gen_succ_some_after mp r sd L n rem hb hLpp hd,
            gen_succ_some_after mp r sd (eraseLedger L pp0) n rem hb hLE hd]
        · rw [gen_succ_some_ok mp r sd (eraseLedger L pp0) n rem hb hLE hd] at hvis
          simp only [List.mem_cons] at hvis
          push_neg at hvis
          obtain ⟨hne, hrest⟩ := hvis
          rw [gen_succ_some_ok mp r sd L n rem hb hLpp hd,
            gen_succ_some_ok mp r sd (eraseLedger L pp0) n rem hb hLE hd,
            ih (n + 1) _ hrest]

/-! ### Concrete scenario inputs used in counterexamples and witnesses -/

/-- January 15 2020, a start date used in concrete scenarios. -/
def dJan15 : Date := mkDate 2020 1 15

/-- January 31 2020, a month-end start date. -/
def dJan31 : Date := mkDate 2020 1 31

/-- One lump sum of 50.0078125 (an exactly-representable dyadic amount
with sub-cent digits) dated exactly on period 1 (February 15 2020) of a
loan starting dJan15. -/
def ledgerSubCent : Ledger :=
  fun pp => if pp = ⟨2020, 2, 15⟩ then some ⟨addMonths dJan15 1, 6401 / 128⟩ else none

/-- One lump sum of 200.00 dated exactly on period 1 of a loan starting
dJan15 (more than the remaining balance of a 100.00 loan). -/
def ledgerBigLump : Ledger :=
  fun pp => if pp = ⟨2020, 2, 15⟩ then some ⟨addMonths dJan15 1, 200⟩ else none

/-- One lump sum of 10.00 dated on the start date itself (period 0). -/
def ledgerPeriod0 : Ledger :=
  fun pp => if pp = ⟨2020, 1, 15⟩ then some ⟨dJan15, 10⟩ else none

/-- One lump sum dated February 20 2020, normalized to the February 15
2020 period of a loan starting dJan15 (five days after the period date). -/
def ledgerLate : Ledger :=
  fun pp => if pp = ⟨2020, 2, 15⟩ then some ⟨mkDate 2020 2 20, 10⟩ else none

/-- One lump sum in September 2025, far beyond the one-year terms of the
concrete schedules below. -/
def ledgerFarFuture : Ledger :=
  fun pp => if pp = ⟨2025, 9, 15⟩ then some ⟨mkDate 2025 9 15, 500⟩ else none

/-! ### Claim theorems -/

unseal Rat.add Rat.mul Rat.sub Rat.inv in
/-- Claim C1, counterexample.  The claim says every balance-changing step
truncates to two decimals by flooring toward zero, including the lump-sum
subtraction.  Both parts fail on the code: truncateToTwoDecimals rounds
0.0078125 up to 0.01 where flooring toward zero gives 0, and the run
(loan 100.00, 75 percent annual rate, 1 year, lump sum 50.0078125 aligned
on period 1) emits a row whose balance is not a whole number of cents,
because the lump-sum subtraction at line 131 is not followed by any
truncation. -/
theorem C1_counterexample :
    truncateToTwoDecimals (1 / 128) ≠ truncTowardZeroTwoDecimalsSpec (1 / 128) ∧
    (wallaceRun 100 75 1 dJan15 ledgerSubCent).map
      (fun res => res.rows.all fun row => (row.balance * 100).den == 1) = some false := by
  constructor
  · decide
  · decide

/-- Claim C1, amended: the per-step adjustment is a rounding to the
NEAREST cent with ties away from zero (error at most half a cent, always
producing an exact cent amount), applied to the interest, principal and
balance of every regular row; the lump-sum subtraction is not followed by
any rounding (see the counterexample for a resulting sub-cent balance). -/
theorem C1_amended : ∀ (x mp r : ℚ) (sd : Date) (L : Ledger) (n rem : ℕ) (b : ℚ),
    (isCent (truncateToTwoDecimals x) ∧ |truncateToTwoDecimals x - x| ≤ 1 / 200) ∧
    (∀ row ∈ (generateSchedule mp r sd L n rem b).rows, row.kind = RowKind.loan →
      isCent row.interest ∧ isCent row.principal ∧ isCent row.balance) := by
  intro x mp r sd L n rem b
  refine ⟨⟨truncateToTwoDecimals_isCent x, ?_⟩, ?_⟩
  · rw [abs_sub_le_iff]
    constructor
    · have h := truncateToTwoDecimals_le x; linarith
    · have h := le_truncateToTwoDecimals x; linarith
  · intro row hmem hk
    exact gen_loan_rows_cent mp r sd L rem n b row hmem hk

unseal Rat.add Rat.mul Rat.sub Rat.inv in
/-- Witness for C1_amended at x = 1/128 and the first regular-payment row
of a concrete schedule. -/
theorem C1_amended_witness :
    (isCent (truncateToTwoDecimals (1 / 128)) ∧
      |truncateToTwoDecimals (1 / 128) - 1 / 128| ≤ 1 / 200) ∧
    (isCent (Row.interest ⟨addMonths dJan15 1, RowKind.loan, 25 / 4, 55 / 4, 20, 345 / 4⟩) ∧
     isCent (Row.principal ⟨addMonths dJan15 1, RowKind.loan, 25 / 4, 55 / 4, 20, 345 / 4⟩) ∧
     isCent (Row.balance ⟨addMonths dJan15 1, RowKind.loan, 25 / 4, 55 / 4, 20, 345 / 4⟩)) :=
  ⟨(C1_amended (1 / 128) 20 (1 / 16) dJan15 emptyLedger 0 13 100).1,
   (C1_amended (1 / 128) 20 (1 / 16) dJan15 emptyLedger 0 13 100).2
     ⟨addMonths dJan15 1, RowKind.loan, 25 / 4, 55 / 4, 20, 345 / 4⟩ (by decide) rfl⟩

unseal Rat.add Rat.mul Rat.sub Rat.inv in
/-- Claim C2, counterexample.  For the loan (principal 100.25, annual
rate 75 percent so monthly rate 1/16, 1 year, no lump sums), the claim's
formula gives interest truncated toward zero:
trunc2(100.25 × 1/16) = trunc2(6.265625) = 6.26, but the emitted period-1
interest is 6.27 (the code rounds to nearest). -/
theorem C2_counterexample :
    ((wallaceRun (401 / 4) 75 1 dJan15 emptyLedger).map
      (fun res => ((res.rows.get? 0).map Row.balance, (res.rows.get? 1).map Row.interest))) =
      some (some (401 / 4), some (627 / 100)) ∧
    truncTowardZeroTwoDecimalsSpec ((401 / 4) * (75 / 100 / 12)) = 313 / 50 ∧
    (627 / 100 : ℚ) ≠ 313 / 50 := by
  refine ⟨by decide, by decide, by decide⟩

/-- Claim C2, amended: for every regular row after the first, with b1 the
previous row's balance re-rounded by truncateToTwoDecimals (round to
nearest cent, which the loop applies at the top of each iteration):
interest = round2(b1 × monthlyRate), principal = round2(min(fixedPayment
− interest, b1)), payment = min(fixedPayment, interest + principal), and
new balance = round2(b1 − principal). -/
theorem C2_amended : ∀ (mp r : ℚ) (sd : Date) (L : Ledger) (n rem : ℕ) (b : ℚ) (k : ℕ)
    (b1 i2 p2 pay2 b2 : ℚ),
    ((generateSchedule mp r sd L n rem b).rows.get? k).map Row.balance = some b1 →
    ((generateSchedule mp r sd L n rem b).rows.get? (k + 1)).map Row.kind =
      some RowKind.loan →
    ((generateSchedule mp r sd L n rem b).rows.get? (k + 1)).map Row.interest = some i2 →
    ((generateSchedule mp r sd L n rem b).rows.get? (k + 1)).map Row.principal = some p2 →
    ((generateSchedule mp r sd L n rem b).rows.get? (k + 1)).map Row.payment = some pay2 →
    ((generateSchedule mp r sd L n rem b).rows.get? (k + 1)).map Row.balance = some b2 →
    i2 = truncateToTwoDecimals (truncateToTwoDecimals b1 * r) ∧
    p2 = truncateToTwoDecimals (bigFloatMin (mp - i2) (truncateToTwoDecimals b1)) ∧
    pay2 = bigFloatMin mp (i2 + p2) ∧
    b2 = truncateToTwoDecimals (truncateToTwoDecimals b1 - p2) := by
  intro mp r sd L n rem b k b1 i2 p2 pay2 b2 h1 hk hi hp hpay hb2
  cases hrow1 : (generateSchedule mp r sd L n rem b).rows.get? k with
  | none => rw [hrow1] at h1; simp at h1
  | some row1 =>
    cases hrow2 : (generateSchedule mp r sd L n rem b).rows.get? (k + 1) with
    | none => rw [hrow2] at hk; simp at hk
    | some row2 =>
      rw [hrow1] at h1
      rw [hrow2] at hk hi hp hpay hb2
      simp only [Option.map_some', Option.some.injEq] at h1 hk hi hp hpay hb2
      subst h1 hi hp hpay hb2
      exact gen_adjacent mp r sd L rem n b k row1 row2 hrow1 hrow2 hk

unseal Rat.add Rat.mul Rat.sub Rat.inv in
/-- Witness for C2_amended on the first adjacent pair of a concrete
schedule (opening balance 100, monthly rate 1/16, fixed payment 20). -/
theorem C2_amended_witness :
    (25 / 4 : ℚ) = truncateToTwoDecimals (truncateToTwoDecimals 100 * (1 / 16)) ∧
    (55 / 4 : ℚ) = truncateToTwoDecimals (bigFloatMin (20 - 25 / 4) (truncateToTwoDecimals 100)) ∧
    (20 : ℚ) = bigFloatMin 20 (25 / 4 + 55 / 4) ∧
    (345 / 4 : ℚ) = truncateToTwoDecimals (truncateToTwoDecimals 100 - 55 / 4) :=
  C2_amended 20 (1 / 16) dJan15 emptyLedger 0 13 100 0 100 (25 / 4) (55 / 4) 20 (345 / 4)
    (by decide) (by decide) (by decide) (by decide) (by decide) (by decide)

/-- Claim C3 (confirmed): for monthlyRate > 0, principal > 0 and
paymentCount > 0, getMonthlyPayment returns exactly
monthlyRate × principal / (1 − (1 + monthlyRate)^(−paymentCount)), and
the result is positive. -/
theorem C3_payment_formula : ∀ (r P : ℚ) (pc : ℕ), 0 < r → 0 < P → 0 < pc →
    getMonthlyPayment r P pc = some (r * P / (1 - (1 + r) ^ (-(pc : ℤ)))) ∧
    0 < r * P / (1 - (1 + r) ^ (-(pc : ℤ))) := by
  intro r P pc hr hP hpc
  have h1r : (1 : ℚ) < 1 + r := by linarith
  have hpow : (1 : ℚ) < (1 + r) ^ pc := one_lt_pow₀ h1r (Nat.pos_iff_ne_zero.mp hpc)
  have hq : (1 + r) ^ (-(pc : ℤ)) = ((1 + r) ^ pc)⁻¹ := by rw [zpow_neg, zpow_natCast]
  have hq1 : (1 + r) ^ (-(pc : ℤ)) < 1 := by rw [hq]; exact inv_lt_one_of_one_lt₀ hpow
  have hq0 : 0 < (1 + r) ^ (-(pc : ℤ)) := by
    rw [hq]; exact inv_pos.mpr (by positivity)
  have hdiv : 0 < 1 - (1 + r) ^ (-(pc : ℤ)) := by linarith
  constructor
  · simp only [getMonthlyPayment]
    rw [if_neg hdiv.ne']
    rw [div_mul_eq_mul_div]
  · exact div_pos (mul_pos hr hP) hdiv

unseal Rat.add Rat.mul Rat.sub Rat.inv in
/-- Witness for C3_payment_formula at rate 1/2, principal 100, one
payment. -/
theorem C3_payment_formula_witness :
    getMonthlyPayment (1 / 2) 100 1 =
      some ((1 / 2) * 100 / (1 - (1 + 1 / 2 : ℚ) ^ (-((1 : ℕ) : ℤ)))) ∧
    0 < (1 / 2 : ℚ) * 100 / (1 - (1 + 1 / 2) ^ (-((1 : ℕ) : ℤ))) :=
  C3_payment_formula (1 / 2) 100 1 (by norm_num) (by norm_num) (by norm_num)

unseal Rat.add Rat.mul Rat.sub Rat.inv in
/-- Claim C4, counterexample.  The claim says getMonthlyPayment
special-cases monthlyRate = 0 and returns principal / paymentCount; in
fact there is no special case: the divisor 1 − 1^(−paymentCount) is zero
and the big.Float quotient 0/0 panics (modelled as none), so nothing is
returned at all. -/
theorem C4_counterexample :
    getMonthlyPayment 0 1000 12 = none ∧
    getMonthlyPayment 0 1000 12 ≠ some (1000 / 12) := by
  refine ⟨by decide, by decide⟩

/-- Claim C4, amended: getMonthlyPayment has no zero-rate special case —
for monthlyRate = 0 the annuity divisor is zero and the computation fails
(the source's big.Float 0/0 quotient panics), for every principal and
payment count. -/
theorem C4_amended : ∀ (P : ℚ) (pc : ℕ), getMonthlyPayment 0 P pc = none := by
  intro P pc
  simp [getMonthlyPayment]

unseal Rat.add Rat.mul Rat.sub Rat.inv in
/-- Claim C5, counterexample.  A 200.00 lump sum aligned on period 1 of a
100.00 loan is subtracted uncapped (src/wallace.go line 131): the emitted
lump-sum row carries balance −105.84, so emitted balances are not all
non-negative. -/
theorem C5_counterexample :
    ((wallaceRun 100 75 1 dJan15 ledgerBigLump).map
      (fun res => (res.rows.get? 2).map (fun row => (row.kind, row.balance)))) =
      some (some (RowKind.lumpSum, -(2646 / 25))) ∧
    ¬ (0 ≤ (-(2646 / 25) : ℚ)) := by
  refine ⟨by decide, by decide⟩

/-- Claim C5, amended: every REGULAR ("loan") row has a non-negative
balance — the regular principal is capped at the remaining balance — but
lump-sum rows are not capped and can drive the balance negative (see the
counterexample); the loop then exits before the next period. -/
theorem C5_amended : ∀ (mp r : ℚ) (sd : Date) (L : Ledger) (rem n : ℕ) (b : ℚ) (row : Row),
    row ∈ (generateSchedule mp r sd L n rem b).rows → row.kind = RowKind.loan →
    0 ≤ row.balance :=
  fun mp r sd L rem n b row hmem hk => gen_loan_rows_nonneg mp r sd L rem n b row hmem hk

unseal Rat.add Rat.mul Rat.sub Rat.inv in
/-- Witness for C5_amended at the opening row of a concrete schedule. -/
theorem C5_amended_witness :
    0 ≤ (Row.balance ⟨addMonths dJan15 0, RowKind.loan, 0, 0, 0, 100⟩) :=
  C5_amended 20 (1 / 16) dJan15 emptyLedger 13 0 100
    ⟨addMonths dJan15 0, RowKind.loan, 0, 0, 0, 100⟩ (by decide) rfl

unseal Rat.add Rat.mul Rat.sub Rat.inv in
/-- Claim C6, counterexample.  With opening principal 100.0078125 and a
10.00 lump sum dated on the start date: period 0's emitted balance is
100.01 ≠ 100.0078125 (the loop's line-109 rounding IS applied at period
0), and a lump-sum row IS emitted at period 0 (the ledger lookup is not
skipped there). -/
theorem C6_counterexample :
    ((wallaceRun (12801 / 128) 75 1 dJan15 ledgerPeriod0).map
      (fun res => ((res.rows.get? 0).map Row.balance, (res.rows.get? 1).map Row.kind))) =
      some (some (10001 / 100), some RowKind.lumpSum) ∧
    (10001 / 100 : ℚ) ≠ 12801 / 128 := by
  refine ⟨by decide, by decide⟩

/-- Claim C6, amended: period 0 emits a "loan" row with zero interest,
zero principal and zero payment, but its balance is
truncateToTwoDecimals(initial principal) — the opening balance is rounded
to the cent — and the lump-sum lookup is not skipped at period 0: an
entry for the start period whose date is on or before the period date is
applied and emits a lump-sum row. -/
theorem C6_amended : ∀ (mp r : ℚ) (sd : Date) (L : Ledger) (rem : ℕ) (b : ℚ), 0 < b →
    (((generateSchedule mp r sd L 0 (rem + 1) b).rows.get? 0).map Row.kind =
        some RowKind.loan ∧
     ((generateSchedule mp r sd L 0 (rem + 1) b).rows.get? 0).map Row.interest = some 0 ∧
     ((generateSchedule mp r sd L 0 (rem + 1) b).rows.get? 0).map Row.principal = some 0 ∧
     ((generateSchedule mp r sd L 0 (rem + 1) b).rows.get? 0).map Row.payment = some 0 ∧
     ((generateSchedule mp r sd L 0 (rem + 1) b).rows.get? 0).map Row.balance =
       some (truncateToTwoDecimals b)) ∧
    (∀ e, L (ppOf (addMonths sd (0 : ℕ))) = some e →
      e.paymentDate.rd ≤ (addMonths sd (0 : ℕ)).rd →
      ((generateSchedule mp r sd L 0 (rem + 1) b).rows.get? 1).map Row.kind =
        some RowKind.lumpSum) := by
  intro mp r sd L rem b hb
  have hb' : ¬ b ≤ 0 := not_le.mpr hb
  constructor
  · rcases hL : L (ppOf (addMonths sd (0 : ℕ))) with _ | payment
    · rw [gen_succ_none mp r sd L 0 rem hb' hL]
      simp [regularStep_zero, sub_zero]
    · by_cases hd : payment.paymentDate.rd - (addMonths sd (0 : ℕ)).rd > 0
      · rw [gen_succ_some_after mp r sd L 0 rem hb' hL hd]
        simp [regularStep_zero, sub_zero]
      · rw [gen_succ_some_ok mp r sd L 0 rem hb' hL hd]
        simp [regularStep_zero, sub_zero]
  · intro e hL hd
    have hd' : ¬ e.paymentDate.rd - (addMonths sd (0 : ℕ)).rd > 0 := by omega
    rw [gen_succ_some_ok mp r sd L 0 rem hb' hL hd']
    simp

unseal Rat.add Rat.mul Rat.sub Rat.inv in
/-- Witness for C6_amended: start date January 15 2020, opening balance
100, lump sum 10.00 dated on the start date. -/
theorem C6_amended_witness :
    ((generateSchedule 20 (1 / 16) dJan15 ledgerPeriod0 0 13 100).rows.get? 0).map
        Row.balance = some (truncateToTwoDecimals 100) ∧
    ((generateSchedule 20 (1 / 16) dJan15 ledgerPeriod0 0 13 100).rows.get? 1).map
        Row.kind = some RowKind.lumpSum :=
  ⟨(C6_amended 20 (1 / 16) dJan15 ledgerPeriod0 12 100 (by norm_num)).1.2.2.2.2,
   (C6_amended 20 (1 / 16) dJan15 ledgerPeriod0 12 100 (by norm_num)).2 ⟨dJan15, 10⟩
     (by decide) (by decide)⟩

unseal Rat.add Rat.mul Rat.sub Rat.inv in
/-- Claim C7, counterexample.  Start date January 31 2020; one lump-sum
record dated March 30 2020.  Its day (30) is below the contractual day
(31), so getLumpSums attributes it to the previous month's period at the
contractual day via AddDate(0,-1,0) and time.Date, and the month-end
normalization (February 30 → March 1) lands the key on March 31 2020.
The generator reaches that period at n = 2 with period date March 31, the
entry's actual date (March 30) differs from the period date, yet the
check at line 127 only rejects payments dated AFTER the period date: the
run completes with no error and the lump-sum row is emitted. -/
theorem C7_counterexample :
    ((getLumpSums [⟨mkDate 2020 3 30, 10⟩] dJan31).map fun L =>
      ((L (ppOf (addMonths dJan31 2))).map LumpSumPayment.paymentDate,
       (wallaceRun 100 75 1 dJan31 L).map fun res =>
         (res.err, res.rows.any fun row => row.kind == RowKind.lumpSum))) =
      some (some (mkDate 2020 3 30), some (none, true)) ∧
    (mkDate 2020 3 30).rd ≠ (addMonths dJan31 2).rd := by
  refine ⟨by decide, by decide⟩

/-- Claim C7, amended: when the generator reaches a period whose ledger
entry's actual payment date is strictly AFTER the period date, generation
fails with MisalignedLumpSum; when the actual date is on or BEFORE the
period date (equal dates, or an earlier date — reachable through
month-end normalization — which is NOT rejected), the lump sum is applied
and a lump-sum row is emitted, this period contributing no error. -/
theorem C7_amended : ∀ (mp r : ℚ) (sd : Date) (L : Ledger) (n rem : ℕ) (b : ℚ)
    (e : LumpSumPayment),
    L (ppOf (addMonths sd n)) = some e → 0 < b →
    ((addMonths sd (n : ℕ)).rd < e.paymentDate.rd →
      (generateSchedule mp r sd L n (rem + 1) b).err =
        some (GenError.misalignedLumpSum e.paymentDate (addMonths sd (n : ℕ)))) ∧
    (e.paymentDate.rd ≤ (addMonths sd (n : ℕ)).rd →
      ((generateSchedule mp r sd L n (rem + 1) b).rows.get? 1).map Row.kind =
        some RowKind.lumpSum ∧
      ∀ b3, ((generateSchedule mp r sd L n (rem + 1) b).rows.get? 1).map Row.balance =
          some b3 →
        (generateSchedule mp r sd L n (rem + 1) b).err =
          (generateSchedule mp r sd L (n + 1) rem b3).err) := by
  intro mp r sd L n rem b e hL hb
  have hb' : ¬ b ≤ 0 := not_le.mpr hb
  constructor
  · intro hlt
    have hd : e.paymentDate.rd - (addMonths sd (n : ℕ)).rd > 0 := by omega
    rw [gen_succ_some_after mp r sd L n rem hb' hL hd]
  · intro hle
    have hd : ¬ e.paymentDate.rd - (addMonths sd (n : ℕ)).rd > 0 := by omega
    rw [gen_succ_some_ok mp r sd L n rem hb' hL hd]
    refine ⟨by simp, ?_⟩
    intro b3 hb3
    simp only [List.get?_cons_succ, List.get?_cons_zero, Option.map_some',
      Option.some.injEq] at hb3
    rw [← hb3]

unseal Rat.add Rat.mul Rat.sub Rat.inv in
/-- Witness for C7_amended, misaligned side: a lump sum dated February 20
2020 matched at the February 15 2020 period aborts generation. -/
theorem C7_amended_witness :
    (generateSchedule 20 (1 / 16) dJan15 ledgerLate 1 12 100).err =
      some (GenError.misalignedLumpSum (mkDate 2020 2 20) (addMonths dJan15 ((1 : ℕ) : ℤ))) :=
  (C7_amended 20 (1 / 16) dJan15 ledgerLate 1 11 100 ⟨mkDate 2020 2 20, 10⟩ (by decide)
    (by norm_num)).1 (by decide)

unseal Rat.add Rat.mul Rat.sub Rat.inv in
/-- Claim C8, counterexample.  Loan 0.9953125 (dyadic, exactly
representable), annual interest flag 12000 (monthly rate 10), one year:
period 0 rounds the balance UP to 1.00, period 1's rounded interest 10.00
then exceeds the fixed payment ≈ 9.95, the principal rounds to −0.05, and
the emitted balance RISES from 1.00 to 1.05 — the schedule is not
non-increasing even though the rate is positive and the principal and
payment count are positive. -/
theorem C8_counterexample :
    ((wallaceRun (1019 / 1024) 12000 1 dJan15 emptyLedger).map
      (fun res => ((res.rows.get? 0).map Row.balance, (res.rows.get? 1).map Row.balance))) =
      some (some 1, some (21 / 20)) ∧
    ¬ ((21 / 20 : ℚ) ≤ 1) := by
  refine ⟨by decide, by decide⟩

/-- Claim C8, amended: with no lump sums, monthlyRate > 0, and an opening
principal that is positive and already an exact cent amount
(truncateToTwoDecimals P = P), with the fixed payment computed by
getMonthlyPayment, consecutive emitted balances are non-increasing.
(For a sub-cent principal the opening round-up can make the rounded
interest exceed the fixed payment, and the balance then increases, as the
counterexample shows; at monthlyRate = 0 getMonthlyPayment produces no
payment at all.) -/
theorem C8_amended : ∀ (r P mp : ℚ) (pc : ℕ) (sd : Date) (rem n k : ℕ) (b1 b2 : ℚ),
    0 < r → 0 < P → pc ≠ 0 → truncateToTwoDecimals P = P →
    getMonthlyPayment r P pc = some mp →
    ((generateSchedule mp r sd emptyLedger n rem P).rows.get? k).map Row.balance =
      some b1 →
    ((generateSchedule mp r sd emptyLedger n rem P).rows.get? (k + 1)).map Row.balance =
      some b2 →
    b2 ≤ b1 := by
  intro r P mp pc sd rem n k b1 b2 hr hP hpc hcent hmp h1 h2
  have hPc : isCent P := by rw [← hcent]; exact truncateToTwoDecimals_isCent P
  have hgt := getMonthlyPayment_pos_gt hr hP hpc hmp
  have hmon : ∀ b : ℚ, 0 ≤ b → b ≤ P → b * r < mp := by
    intro b hb hbP
    calc b * r ≤ P * r := mul_le_mul_of_nonneg_right hbP hr.le
      _ < mp := hgt.1
  have haux := (gen_mono_aux mp r P sd hmon rem n P hP.le hPc (le_refl P)).2
  cases hrow1 : (generateSchedule mp r sd emptyLedger n rem P).rows.get? k with
  | none => rw [hrow1] at h1; simp at h1
  | some row1 =>
    cases hrow2 : (generateSchedule mp r sd emptyLedger n rem P).rows.get? (k + 1) with
    | none => rw [hrow2] at h2; simp at h2
    | some row2 =>
      rw [hrow1] at h1
      rw [hrow2] at h2
      simp only [Option.map_some', Option.some.injEq] at h1 h2
      subst h1 h2
      exact haux k row1 row2 hrow1 hrow2

unseal Rat.add Rat.mul Rat.sub Rat.inv in
/-- Witness for C8_amended on the first two rows of the schedule for
principal 100, monthly rate 1/16, twelve payments. -/
theorem C8_amended_witness : (2354 / 25 : ℚ) ≤ 100 :=
  C8_amended (1 / 16) 100 (2913111186148805 / 240917808415284) 12 dJan15 13 0 0 100
    (2354 / 25) (by norm_num) (by norm_num) (by norm_num) (by decide) (by decide)
    (by decide) (by decide)

/-- Claim C9, counterexample.  The engine's number type — Go
math/big.Float, binary sign × mantissa × 2^exponent — holds only dyadic
rationals, and the decimal text amount 0.1 is not dyadic: no run of the
engine can represent it exactly, contradicting the claim that decimal
text amounts are represented exactly in arbitrary-precision decimal
arithmetic. -/
theorem C9_counterexample : ¬ bigFloatExact (1 / 10) := by
  rintro ⟨m, e, h⟩
  have h2 : ((2 : ℚ) ^ e) = 10 * m := by
    have h10 : (1 / 10 : ℚ) * 2 ^ e = m := h
    linarith
  have h3 : (2 : ℤ) ^ e = 10 * m := by exact_mod_cast h2
  have h5 : (5 : ℤ) ∣ 2 ^ e := ⟨2 * m, by linarith⟩
  have hp : Prime (5 : ℤ) := by norm_num
  have h6 : (5 : ℤ) ∣ 2 := hp.dvd_of_dvd_pow h5
  norm_num at h6

/-- Claim C9, amended: the engine's monetary values are binary floating
point (big.Float / float64), not decimal: a rational amount is exactly
representable in the engine's number type precisely when its reduced
denominator is a power of two, so decimal amounts such as 0.10 are never
held exactly and the truncation helper's float64 round-trip stays within
dyadic values. -/
theorem C9_amended : ∀ q : ℚ, bigFloatExact q ↔ ∃ k : ℕ, q.den = 2 ^ k := by
  intro q
  constructor
  · rintro ⟨m, e, h⟩
    have hden : ((q.den : ℤ) : ℚ) ≠ 0 := by
      exact_mod_cast (Nat.cast_ne_zero (R := ℚ)).mpr q.den_nz
    have hq : (q.num : ℚ) * 2 ^ e = m * q.den := by
      have hnum := Rat.num_div_den q
      calc (q.num : ℚ) * 2 ^ e = (q.num / q.den) * 2 ^ e * q.den := by
            field_simp
        _ = q * 2 ^ e * q.den := by rw [hnum]
        _ = m * q.den := by rw [h]
    have hz : q.num * 2 ^ e = m * q.den := by exact_mod_cast hq
    have hdvd : (q.den : ℤ) ∣ q.num * 2 ^ e := ⟨m, by linarith⟩
    have hdvd2 : q.den ∣ q.num.natAbs * 2 ^ e := by
      have hnat := Int.natAbs_dvd_natAbs.mpr hdvd
      simpa [Int.natAbs_mul, Int.natAbs_pow] using hnat
    have hcop : Nat.Coprime q.den q.num.natAbs := (q.reduced).symm
    have hdvd3 : q.den ∣ 2 ^ e := hcop.dvd_of_dvd_mul_left hdvd2
    rcases (Nat.dvd_prime_pow Nat.prime_two).mp hdvd3 with ⟨k, _, hk⟩
    exact ⟨k, hk⟩
  · rintro ⟨k, hk⟩
    refine ⟨q.num, k, ?_⟩
    conv_lhs => rw [← Rat.num_div_den q, hk]
    push_cast
    rw [div_mul_cancel₀]
    positivity

/-- Claim C10 (confirmed): generation with a ledger entry whose
PaymentPeriod key is never looked up (never visited by the period loop)
is identical — same rows, same error, same visit sequence — to generation
with that entry removed, so the entry is silently ignored. -/
theorem C10_unmatched_lump_ignored : ∀ (mp r : ℚ) (sd : Date) (L : Ledger)
    (pp0 : PaymentPeriod) (e : LumpSumPayment) (rem n : ℕ) (b : ℚ),
    L pp0 = some e →
    pp0 ∉ (generateSchedule mp r sd (eraseLedger L pp0) n rem b).visited →
    generateSchedule mp r sd L n rem b =
      generateSchedule mp r sd (eraseLedger L pp0) n rem b := by
  intro mp r sd L pp0 e rem n b _ hvis
  exact gen_erase_core mp r sd L pp0 rem n b hvis

unseal Rat.add Rat.mul Rat.sub Rat.inv in
/-- Witness for C10 with a lump sum in September 2025, outside a one-year
schedule starting January 2020. -/
theorem C10_unmatched_lump_ignored_witness :
    generateSchedule 20 (1 / 16) dJan15 ledgerFarFuture 0 13 100 =
      generateSchedule 20 (1 / 16) dJan15 (eraseLedger ledgerFarFuture ⟨2025, 9, 15⟩)
        0 13 100 :=
  C10_unmatched_lump_ignored 20 (1 / 16) dJan15 ledgerFarFuture ⟨2025, 9, 15⟩
    ⟨mkDate 2025 9 15, 500⟩ 13 0 100 (by decide) (by decide)
